import Mathlib

/-
Verification development for the image-augmentation pipeline compiler of
`src/dataset/transforms.py`.

The Python module is shallowly embedded:
  * the global mutable registry `AUG_METHODS` becomes an association list that
    is threaded explicitly through every operation that touches it;
  * PIL images become a structure of a width, a height and a pixel function;
  * every draw from a random number generator (`random.random`,
    `random.uniform`, `np.random.randint`) becomes an explicit argument holding
    the drawn value, so a theorem quantifying over those arguments quantifies
    over every possible random state;
  * Python exceptions (`KeyError`, `IndexError`, `ValueError`, failed
    `assert`s) become `Except` errors.
-/

/-- Errors raised by the embedded code; each constructor records which Python
exception (or failed assert message) it stands for. -/
inductive Err where
  /-- `KeyError` from `AUG_METHODS[name]` on an unknown name. -/
  | keyError
  /-- `ValueError("An entry is already registered under the name '...'")`
  raised by `register_method`. -/
  | duplicateName
  /-- `IndexError` from indexing a list out of range. -/
  | indexError
  /-- `ValueError` from `int(...)` on a non-numeric string. -/
  | valueError
  /-- failed `assert isinstance(params, dict)` in `addAugToSequence`. -/
  | assertParamsDict
  /-- failed `assert isinstance(params, list)` for a `random_choice` entry. -/
  | assertChoiceList
  /-- failed `assert isinstance(choice, dict) and len(choice)==1`. -/
  | assertChoiceSingleton
  /-- failed `assert os.path.splitext(self.noisy[0])[-1] == '.jpg'`. -/
  | assertJpg
  /-- a factory called with arguments of the wrong shape (`TypeError`). -/
  | badFactoryArg
  /-- failed `assert len(pad_value) == 3` in `PadIfNeed.__init__`. -/
  | assertPadValueLen
  /-- failed `assert mode in ('edge', 'average')` in `PadIfNeed.__init__`. -/
  | assertPadMode
deriving DecidableEq

/-- A compiled transform object.  Ordinary registered factories (`resize`,
`to_tensor`, ...) construct library transform objects whose internals are out
of scope here; they are represented by their registry name together with the
keyword parameters they were constructed from.  `T.RandomChoice` is the one
combinator the compiler itself builds, so it is represented structurally. -/
inductive Transform where
  | step (name : String) (params : Option (List (String × ℚ)))
  | randomChoice (cands : List Transform)

/-- The argument shapes a registered factory can be called with in
`create_AugTransforms`: no arguments (`no_params`), keyword arguments, or the
positional candidate list passed to the `random_choice` factory. -/
inductive FactoryArg where
  | noneArg
  | params (kv : List (String × ℚ))
  | transforms (ts : List Transform)

/-- A registered factory: called with arguments, it produces a transform or
raises. -/
abbrev Factory := FactoryArg → Except Err Transform

/-- The `AUG_METHODS` registry: an insertion-ordered mapping from a name to
the registered factory, as a Python `dict` is. -/
abbrev Registry := List (String × Factory)

/-- `AUG_METHODS[name]` : the factory registered under `name`, or a
`KeyError`. -/
def lookupFactory (r : Registry) (name : String) : Except Err Factory :=
  match r.lookup name with
  | some f => Except.ok f
  | none => Except.error Err.keyError

/-- The inner `wrapper` closure returned by `register_method`: via
`functools.wraps` it forwards every call to the wrapped factory unchanged. -/
def wrapper (fn : Factory) : Factory :=
  fun args => fn args

/-- `register_method(fn)` with `key = fn.__name__`, acting on the registry
state: if the key is already present it raises `ValueError` and the registry
is untouched; otherwise it stores `fn` itself under the key (a `dict`
assignment of a fresh key appends in insertion order) and returns the
pass-through `wrapper`. -/
def register_methodST (r : Registry) (key : String) (fn : Factory) :
    Except Err Factory × Registry :=
  if (r.lookup key).isSome then (Except.error Err.duplicateName, r)
  else (Except.ok (wrapper fn), r ++ [(key, fn)])

/-- Model of an ordinary registered factory such as `resize` or `to_tensor`:
it accepts no arguments or keyword arguments and builds its library transform
(represented by name and parameters); it is never called with a positional
transform list. -/
def stepFactory (name : String) : Factory :=
  fun args =>
    match args with
    | FactoryArg.noneArg => Except.ok (Transform.step name none)
    | FactoryArg.params kv => Except.ok (Transform.step name (some kv))
    | FactoryArg.transforms _ => Except.error Err.badFactoryArg

/-- The registered `random_choice` factory: `T.RandomChoice(transforms=...)`
built from the candidate list; any other call shape is a `TypeError`. -/
def randomChoiceFactory : Factory :=
  fun args =>
    match args with
    | FactoryArg.transforms ts => Except.ok (Transform.randomChoice ts)
    | _ => Except.error Err.badFactoryArg

/-- A parameter value attached to one configuration key: the `'no_params'`
sentinel string, a keyword mapping, or a list of single-entry mappings (the
shape `random_choice` expects). -/
inductive PVal where
  | noParams
  | dict (kv : List (String × ℚ))
  | lst (cs : List (List (String × PVal)))

/-- The `augments` configuration dictionary passed to `create_AugTransforms`,
in insertion order. -/
abbrev AugConfig := List (String × PVal)

/-- The body of `addAugToSequence` that resolves one (name, params) pair to a
transform: on the `'no_params'` sentinel call the factory with no arguments;
on a mapping call it with keyword arguments; anything else fails the
`assert isinstance(params, dict)`. -/
def resolveStep (r : Registry) (name : String) (params : PVal) :
    Except Err Transform :=
  match params with
  | PVal.noParams =>
      match lookupFactory r name with
      | Except.ok f => f FactoryArg.noneArg
      | Except.error e => Except.error e
  | PVal.dict kv =>
      match lookupFactory r name with
      | Except.ok f => f (FactoryArg.params kv)
      | Except.error e => Except.error e
  | PVal.lst _ => Except.error Err.assertParamsDict

/-- The `for choice in augments[key]` loop of `create_AugTransforms`: each
entry must be a single-entry mapping (`assert isinstance(choice, dict) and
len(choice)==1`), is resolved through `addAugToSequence`, and is appended to
the accumulated candidate list. -/
def choiceLoop : Registry → List (List (String × PVal)) → List Transform →
    Except Err (List Transform)
  | _, [], acc => Except.ok acc
  | r, c :: cs, acc =>
      match c with
      | [(k, p)] =>
          match resolveStep r k p with
          | Except.ok t => choiceLoop r cs (acc ++ [t])
          | Except.error e => Except.error e
      | _ => Except.error Err.assertChoiceSingleton

/-- The `for key, params in augments.items()` loop of `create_AugTransforms`:
a `random_choice` key must carry a list, its candidates are compiled by
`choiceLoop`, and the single resulting choice transform is appended; any other
key is resolved by `addAugToSequence` and appended. -/
def augLoop : Registry → AugConfig → List Transform →
    Except Err (List Transform)
  | _, [], augs => Except.ok augs
  | r, (key, params) :: rest, augs =>
      if key = "random_choice" then
        match params with
        | PVal.lst cs =>
            match choiceLoop r cs [] with
            | Except.ok choiceAugs =>
                match lookupFactory r "random_choice" with
                | Except.ok f =>
                    match f (FactoryArg.transforms choiceAugs) with
                    | Except.ok t => augLoop r rest (augs ++ [t])
                    | Except.error e => Except.error e
                | Except.error e => Except.error e
            | Except.error e => Except.error e
        | _ => Except.error Err.assertChoiceList
      else
        match resolveStep r key params with
        | Except.ok t => augLoop r rest (augs ++ [t])
        | Except.error e => Except.error e

/-- `create_AugTransforms(augments)`: compile the configuration against the
registry into the ordered step list of the resulting `T.Compose` pipeline. -/
def create_AugTransforms (r : Registry) (augments : AugConfig) :
    Except Err (List Transform) :=
  augLoop r augments []

/-- `AUG_METHODS[name]` as a state-passing operation on the global registry:
a dictionary read returns its result and leaves the dictionary as it was. -/
def lookupFactoryST (r : Registry) (name : String) :
    Except Err Factory × Registry :=
  match r.lookup name with
  | some f => (Except.ok f, r)
  | none => (Except.error Err.keyError, r)

/-- State-passing form of `resolveStep`, threading the registry through each
dictionary access. -/
def resolveStepST (r : Registry) (name : String) (params : PVal) :
    Except Err Transform × Registry :=
  match params with
  | PVal.noParams =>
      match lookupFactoryST r name with
      | (Except.ok f, r1) => (f FactoryArg.noneArg, r1)
      | (Except.error e, r1) => (Except.error e, r1)
  | PVal.dict kv =>
      match lookupFactoryST r name with
      | (Except.ok f, r1) => (f (FactoryArg.params kv), r1)
      | (Except.error e, r1) => (Except.error e, r1)
  | PVal.lst _ => (Except.error Err.assertParamsDict, r)

/-- State-passing form of `choiceLoop`. -/
def choiceLoopST : Registry → List (List (String × PVal)) → List Transform →
    Except Err (List Transform) × Registry
  | r, [], acc => (Except.ok acc, r)
  | r, c :: cs, acc =>
      match c with
      | [(k, p)] =>
          match resolveStepST r k p with
          | (Except.ok t, r1) => choiceLoopST r1 cs (acc ++ [t])
          | (Except.error e, r1) => (Except.error e, r1)
      | _ => (Except.error Err.assertChoiceSingleton, r)

/-- State-passing form of `augLoop`. -/
def augLoopST : Registry → AugConfig → List Transform →
    Except Err (List Transform) × Registry
  | r, [], augs => (Except.ok augs, r)
  | r, (key, params) :: rest, augs =>
      if key = "random_choice" then
        match params with
        | PVal.lst cs =>
            match choiceLoopST r cs [] with
            | (Except.ok choiceAugs, r1) =>
                match lookupFactoryST r1 "random_choice" with
                | (Except.ok f, r2) =>
                    match f (FactoryArg.transforms choiceAugs) with
                    | Except.ok t => augLoopST r2 rest (augs ++ [t])
                    | Except.error e => (Except.error e, r2)
                | (Except.error e, r2) => (Except.error e, r2)
            | (Except.error e, r1) => (Except.error e, r1)
        | _ => (Except.error Err.assertChoiceList, r)
      else
        match resolveStepST r key params with
        | (Except.ok t, r1) => augLoopST r1 rest (augs ++ [t])
        | (Except.error e, r1) => (Except.error e, r1)

/-- `create_AugTransforms` as a state-passing operation on the global
`AUG_METHODS` dictionary. -/
def create_AugTransformsST (r : Registry) (augments : AugConfig) :
    Except Err (List Transform) × Registry :=
  augLoopST r augments []

/-- Resolve each list element through `f`, failing on the first error;
the success value keeps the input order. -/
def mapExcept {α β : Type} (f : α → Except Err β) : List α →
    Except Err (List β)
  | [] => Except.ok []
  | a :: as =>
      match f a with
      | Except.ok b =>
          match mapExcept f as with
          | Except.ok bs => Except.ok (b :: bs)
          | Except.error e => Except.error e
      | Except.error e => Except.error e

/-- The compilation of one `random_choice` candidate: a single-entry mapping
resolved like an ordinary entry. -/
def compileChoiceEntry (r : Registry) (c : List (String × PVal)) :
    Except Err Transform :=
  match c with
  | [(k, p)] => resolveStep r k p
  | _ => Except.error Err.assertChoiceSingleton

/-- The compilation of one top-level configuration entry to the one transform
it contributes to the pipeline. -/
def compileEntry (r : Registry) (e : String × PVal) : Except Err Transform :=
  if e.1 = "random_choice" then
    match e.2 with
    | PVal.lst cs =>
        match mapExcept (compileChoiceEntry r) cs with
        | Except.ok ts =>
            match lookupFactory r "random_choice" with
            | Except.ok f => f (FactoryArg.transforms ts)
            | Except.error e => Except.error e
        | Except.error e => Except.error e
    | _ => Except.error Err.assertChoiceList
  else resolveStep r e.1 e.2

/-- A pixel colour: an RGB triple. Black is `(0, 0, 0)`. -/
abbrev Color := ℤ × ℤ × ℤ

/-- A PIL image: a width, a height, and the colour at each coordinate
`(x, y)` with `x < width`, `y < height` (values outside that domain are
irrelevant). -/
structure PILImage where
  width : ℕ
  height : ℕ
  pixel : ℕ → ℕ → Color

/-- `canvas.paste(src, (ox, oy))`: overwrite the rectangle of `src`'s size at
offset `(ox, oy)` with `src`'s pixels, without blending; PIL clips the pasted
region to the canvas bounds, which the fixed canvas domain already models. -/
def pasteImage (canvas src : PILImage) (ox oy : ℕ) : PILImage :=
  { canvas with
    pixel := fun x y =>
      if ox ≤ x ∧ x < ox + src.width ∧ oy ≤ y ∧ y < oy + src.height then
        src.pixel (x - ox) (y - oy)
      else canvas.pixel x y }

/-- `Image.new('RGB', size=(mw, mh), color=0)`: the solid black mask. -/
def blackMask (mw mh : ℕ) : PILImage :=
  ⟨mw, mh, fun _ _ => (0, 0, 0)⟩

/-- Decidable pixel-wise comparison of two images over the first image's
domain. -/
def pixelsEq (a b : PILImage) : Bool :=
  (List.range a.width).all fun x =>
    (List.range a.height).all fun y =>
      decide (a.pixel x y = b.pixel x y)

/-- Python `int(q)`: truncation of a real (here rational) number toward
zero. -/
def pyTrunc (q : ℚ) : ℤ :=
  if 0 ≤ q then q.floor else -((-q).floor)

/-- The `Cutout` transform's constructor state. `h_range`/`w_range` are the
optional sampling ranges for the hole centers; they matter only for how the
random centers are drawn, which the call model receives as explicit draws. -/
structure CutoutT where
  n_holes : ℕ
  length : ℕ
  ratio : ℚ
  h_range : Option (ℤ × ℤ)
  w_range : Option (ℤ × ℤ)
  prob : ℚ

/-- `mask_w = int(random.uniform(1-ratio, 1+ratio) * length)` for a drawn
factor `u`, as a width (`Image.new` requires it nonnegative). -/
def maskW (length : ℕ) (u : ℚ) : ℕ :=
  (pyTrunc (u * length)).toNat

/-- The hole's top-left corner for a drawn center `(y, x)`:
`x1 = max(0, x - length // 2)`, `y1 = max(0, y - length // 2)`; the pair is
returned as `(x1, y1)`. -/
def holeCorner (length : ℕ) (yx : ℤ × ℤ) : ℕ × ℕ :=
  ((max 0 (yx.2 - (length : ℤ) / 2)).toNat,
   (max 0 (yx.1 - (length : ℤ) / 2)).toNat)

/-- One iteration of the hole loop: paste the black mask of size
`(mw, mh)` at the clamped corner for the drawn center `yx`. -/
def pasteHole (length mw mh : ℕ) (im : PILImage) (yx : ℤ × ℤ) : PILImage :=
  pasteImage im (blackMask mw mh) (holeCorner length yx).1 (holeCorner length yx).2

/-- Membership of pixel `(px, py)` in the rectangle pasted for center `yx`
with mask size `(mw, mh)`. -/
def inHoleRect (length mw mh : ℕ) (yx : ℤ × ℤ) (px py : ℕ) : Prop :=
  (holeCorner length yx).1 ≤ px ∧ px < (holeCorner length yx).1 + mw ∧
  (holeCorner length yx).2 ≤ py ∧ py < (holeCorner length yx).2 + mh

instance (length mw mh : ℕ) (yx : ℤ × ℤ) (px py : ℕ) :
    Decidable (inHoleRect length mw mh yx px py) := by
  unfold inHoleRect; infer_instance

/-- The apply branch of `Cutout.__call__` on the deep copy: `u` is the single
`random.uniform(1-ratio, 1+ratio)` draw made once before the loop, and
`centers` holds the `(y, x)` center draws of the `n_holes` iterations.  The
same black mask of width `int(u * length)` and height `length` is pasted at
each hole's clamped corner. -/
def cutoutApply (c : CutoutT) (u : ℚ) (centers : List (ℤ × ℤ))
    (img : PILImage) : PILImage :=
  centers.foldl (pasteHole c.length (maskW c.length u) c.length) img

/-- Modelled from the spec: the same hole loop, but with each hole pasting a
rectangle of width `int(u_i * length)` for its own independently drawn width
factor `u_i` — the per-hole-independent reading of "U is drawn uniformly from
[1−r, 1+r] independently for each hole".  This is the comparison definition
for the refinement claim; the source computes the width once, before the
loop. -/
def cutoutApplySpecPerHole (c : CutoutT) (us : List ℚ)
    (centers : List (ℤ × ℤ)) (img : PILImage) : PILImage :=
  (centers.zip us).foldl
    (fun im p => pasteHole c.length (maskW c.length p.2) c.length im p.1) img

/-- `Cutout.__call__`: `gate` is the `random.random()` draw.  If
`gate > prob` the input image object is returned unchanged; otherwise the
holes are painted on a deep copy (value-identical to the input). -/
def cutoutCall (c : CutoutT) (gate u : ℚ) (centers : List (ℤ × ℤ))
    (img : PILImage) : PILImage :=
  if c.prob < gate then img else cutoutApply c u centers img

/-- `os.path.splitext(s)[-1]`: the extension including its dot, or the empty
string when the name has no dot. -/
def pySplitextExt (s : String) : String :=
  let parts := s.splitOn "."
  if parts.length ≤ 1 then "" else "." ++ parts.getLastD ""

/-- The `CutAddNoise` transform's constructor state; `noisy` is the list of
`.jpg` paths found by the directory glob. -/
structure CutAddNoiseT where
  n_holes : ℕ
  length : ℕ
  h_range : Option (ℤ × ℤ)
  w_range : Option (ℤ × ℤ)
  prob : ℚ
  noisy : List String

/-- `CutAddNoise.__init__`: `globJpg` is the result of
`glob.glob(f'{noisy_src}/*.jpg')`.  The assert indexes `self.noisy[0]`, so an
empty glob raises `IndexError` before any image is processed; otherwise the
first path's extension must be `.jpg`. -/
def cutAddNoise_init (n_holes length : ℕ) (h_range w_range : Option (ℤ × ℤ))
    (prob : ℚ) (globJpg : List String) : Except Err CutAddNoiseT :=
  match globJpg with
  | [] => Except.error Err.indexError
  | f :: _ =>
      if pySplitextExt f = ".jpg" then
        Except.ok ⟨n_holes, length, h_range, w_range, prob, globJpg⟩
      else Except.error Err.assertJpg

/-- The `pad_value` argument of `PadIfNeed.__init__`: a single int or a
sequence. -/
inductive PadValue where
  | int (v : ℤ)
  | seq (l : List ℤ)

/-- The `PadIfNeed` transform's constructor state after validation. -/
structure PadIfNeedT where
  pad_value : Color
  mode : String

/-- `PadIfNeed.__init__`: an int fill is broadcast to a triple, a sequence
fill must have length exactly 3, and the mode must be `edge` or `average`;
both checks are asserts raised at construction. -/
def padIfNeed_init (pad_value : PadValue) (mode : String) :
    Except Err PadIfNeedT :=
  match pad_value with
  | PadValue.int v =>
      if mode = "edge" ∨ mode = "average" then Except.ok ⟨(v, v, v), mode⟩
      else Except.error Err.assertPadMode
  | PadValue.seq l =>
      match l with
      | [a, b, c] =>
          if mode = "edge" ∨ mode = "average" then Except.ok ⟨(a, b, c), mode⟩
          else Except.error Err.assertPadMode
      | _ => Except.error Err.assertPadValueLen

/-- `PadIfNeed.__call__`: build a square canvas of side `max(w, h)` filled
with the pad value, then paste the source at `((max-w)//2, (max-h)//2)` in
`average` mode and at `(max-w, max-h)` otherwise. -/
def padIfNeed_call (t : PadIfNeedT) (img : PILImage) : PILImage :=
  let w := img.width
  let h := img.height
  let max_size := max w h
  let new_im : PILImage := ⟨max_size, max_size, fun _ _ => t.pad_value⟩
  if t.mode = "average" then
    pasteImage new_im img ((max_size - w) / 2) ((max_size - h) / 2)
  else
    pasteImage new_im img (max_size - w) (max_size - h)

/-- An element of a class-wise index list as the Python loop sees it: either a
token of a space-separated string or an integer from a list. -/
inductive StrOrInt where
  | s (v : String)
  | i (v : ℤ)

/-- The value attached to one class key in `class_transforms_mapping`: a
space-separated string of indices or a list of integers. -/
inductive TVal where
  | str (v : String)
  | ints (l : List ℤ)

/-- Python `str.split()` with no argument: split on whitespace runs and drop
empty tokens. -/
def pySplitWs (s : String) : List String :=
  (s.split fun c => c == ' ' || c == '\t' || c == '\n').filter (fun t => t ≠ "")

/-- Python `int(i)` applied to a loop element: an integer passes through, a
string is parsed, and a non-numeric string raises `ValueError`. -/
def pyToInt (e : StrOrInt) : Except Err ℤ :=
  match e with
  | StrOrInt.i v => Except.ok v
  | StrOrInt.s v =>
      match v.toInt? with
      | some n => Except.ok n
      | none => Except.error Err.valueError

/-- The sequence the `for i in t` loop iterates over: the original integer
list, or the tokens after `t = t.split()`. -/
def elemsOf (t : TVal) : List StrOrInt :=
  match t with
  | TVal.str v => (pySplitWs v).map StrOrInt.s
  | TVal.ints l => l.map StrOrInt.i

/-- Python index normalization: a negative index counts from the end of a
sequence of the given length. -/
def pyNormIdx (len : ℕ) (i : ℤ) : ℤ :=
  if i < 0 then i + len else i

/-- Python list indexing `l[i]`: a negative index counts from the end; an
index outside `-len ≤ i < len` raises `IndexError`. -/
def pyGetElem {α : Type} (l : List α) (i : ℤ) : Except Err α :=
  if 0 ≤ pyNormIdx l.length i then
    match l.get? (pyNormIdx l.length i).toNat with
    | some a => Except.ok a
    | none => Except.error Err.indexError
  else Except.error Err.indexError

/-- A compiled transform step together with its Python object identity: each
factory call in `create_AugTransforms` allocates a fresh object, so within one
dispatcher the steps of the default pipeline carry distinct identities, here
their allocation order.  Indexing into the default pipeline's step list hands
out the same object (the same `oid`), while a copy would allocate a fresh
one. -/
structure ObjTransform where
  oid : ℕ
  val : Transform

/-- Tag the freshly compiled default pipeline's steps with their allocation
identities. -/
def tagSteps (ts : List Transform) : List ObjTransform :=
  ts.enum.map fun p => ⟨p.1, p.2⟩

/-- The `for i in t` loop of `BaseClassWiseAugmenter.__init__`: convert each
element with `int(...)` and append `self.base_transforms.transforms[int(i)]`
to the class's sub-pipeline. -/
def buildOne (base : List ObjTransform) : List StrOrInt → List ObjTransform →
    Except Err (List ObjTransform)
  | [], acc => Except.ok acc
  | e :: es, acc =>
      match pyToInt e with
      | Except.ok i =>
          match pyGetElem base i with
          | Except.ok t => buildOne base es (acc ++ [t])
          | Except.error err => Except.error err
      | Except.error err => Except.error err

/-- The `for c, t in class_transforms_mapping.items()` loop: build each
class's sub-pipeline in mapping order. -/
def buildAll (base : List ObjTransform) :
    List (String × TVal) → List (String × List ObjTransform) →
    Except Err (List (String × List ObjTransform))
  | [], acc => Except.ok acc
  | (c, tv) :: rest, acc =>
      match buildOne base (elemsOf tv) [] with
      | Except.ok sub => buildAll base rest (acc ++ [(c, sub)])
      | Except.error err => Except.error err

/-- The dispatcher state built by `BaseClassWiseAugmenter.__init__`: the
default pipeline's steps (with their object identities) and the optional
per-class sub-pipelines. -/
structure BaseClassWiseAugmenter where
  base_transforms : List ObjTransform
  class_transforms : Option (List (String × List ObjTransform))

/-- `BaseClassWiseAugmenter.__init__`: compile the base configuration into
the default pipeline, then, when a mapping is supplied, build each class's
sub-pipeline by indexing into the default pipeline's step list; with no
mapping, `class_transforms` is `None`. -/
def baseClassWiseAugmenter_init (r : Registry) (base_transforms : AugConfig)
    (class_transforms_mapping : Option (List (String × TVal))) :
    Except Err BaseClassWiseAugmenter :=
  match create_AugTransforms r base_transforms with
  | Except.error e => Except.error e
  | Except.ok p =>
      let base := tagSteps p
      match class_transforms_mapping with
      | some m =>
          match buildAll base m [] with
          | Except.ok ct => Except.ok ⟨base, some ct⟩
          | Except.error e => Except.error e
      | none => Except.ok ⟨base, none⟩

/-- Resolution of one class-wise index element: `int(...)` conversion followed
by Python indexing into the default pipeline's steps. -/
def resolveIdx (base : List ObjTransform) (e : StrOrInt) :
    Except Err ObjTransform :=
  match pyToInt e with
  | Except.ok i => pyGetElem base i
  | Except.error err => Except.error err

/-- The compilation of one class-mapping entry to its (class, sub-pipeline)
pair. -/
def compileClass (base : List ObjTransform) (e : String × TVal) :
    Except Err (String × List ObjTransform) :=
  match mapExcept (resolveIdx base) (elemsOf e.2) with
  | Except.ok sub => Except.ok (e.1, sub)
  | Except.error err => Except.error err

/-- A small concrete registry holding two ordinary factories and the
`random_choice` factory, used to instantiate the theorems. -/
def demoRegistry : Registry :=
  [("resize", stepFactory "resize"),
   ("to_tensor", stepFactory "to_tensor"),
   ("random_choice", randomChoiceFactory)]

/-- A concrete configuration with one ordinary entry and one `random_choice`
entry holding two candidates. -/
def demoCfgChoice : AugConfig :=
  [("resize", PVal.noParams),
   ("random_choice", PVal.lst [[("to_tensor", PVal.noParams)],
                               [("resize", PVal.noParams)]])]

/-- A concrete configuration with two ordinary entries. -/
def demoCfgPlain : AugConfig :=
  [("resize", PVal.noParams), ("to_tensor", PVal.noParams)]

/-- A 2×2 all-white image. -/
def whiteSmall : PILImage :=
  ⟨2, 2, fun _ _ => (255, 255, 255)⟩

/-- A 2×2 all-black image. -/
def blackSmall : PILImage :=
  ⟨2, 2, fun _ _ => (0, 0, 0)⟩

/-- An 8×2 all-white image. -/
def whiteWide : PILImage :=
  ⟨8, 2, fun _ _ => (255, 255, 255)⟩

/-- A cutout with two holes, side length 2, width jitter 1 and probability
1. -/
def cexCutoutTwo : CutoutT :=
  ⟨2, 2, 1, none, none, 1⟩

/-- A cutout with one hole, side length 2, no width jitter and probability
0. -/
def cexCutoutP0 : CutoutT :=
  ⟨1, 2, 0, none, none, 0⟩

/-- A cutout with one hole, side length 2, no width jitter and probability
1. -/
def cexCutoutP1 : CutoutT :=
  ⟨1, 2, 0, none, none, 1⟩

theorem lookupFactoryST_eq (r : Registry) (name : String) :
    lookupFactoryST r name = (lookupFactory r name, r) := by
  unfold lookupFactoryST lookupFactory
  cases r.lookup name <;> rfl

theorem resolveStepST_eq (r : Registry) (name : String) (params : PVal) :
    resolveStepST r name params = (resolveStep r name params, r) := by
  unfold resolveStepST resolveStep
  cases params <;> rw [lookupFactoryST_eq] <;> try rfl
  all_goals cases lookupFactory r name <;> rfl

theorem choiceLoopST_eq (r : Registry) (cs : List (List (String × PVal)))
    (acc : List Transform) :
    choiceLoopST r cs acc = (choiceLoop r cs acc, r) := by
  induction cs generalizing acc with
  | nil => rfl
  | cons c cs ih =>
      cases c with
      | nil => rfl
      | cons hd tl =>
          obtain ⟨k, p⟩ := hd
          cases tl with
          | nil =>
              simp only [choiceLoopST, choiceLoop, resolveStepST_eq]
              cases hres : resolveStep r k p with
              | ok t => exact ih (acc ++ [t])
              | error e => rfl
          | cons h2 t2 => rfl

theorem augLoopST_eq (r : Registry) (cfg : AugConfig) (augs : List Transform) :
    augLoopST r cfg augs = (augLoop r cfg augs, r) := by
  induction cfg generalizing augs with
  | nil => rfl
  | cons e rest ih =>
      obtain ⟨key, params⟩ := e
      by_cases hk : key = "random_choice"
      · subst hk
        cases params with
        | noParams => rfl
        | dict kv => rfl
        | lst cs =>
            simp only [augLoopST, augLoop, choiceLoopST_eq, lookupFactoryST_eq,
              eq_self_iff_true, if_true]
            cases hcl : choiceLoop r cs [] with
            | ok choiceAugs =>
                cases hlf : lookupFactory r "random_choice" with
                | ok f =>
                    cases hf : f (FactoryArg.transforms choiceAugs) with
                    | ok t => simp [hcl, hlf, hf, ih]
                    | error e => simp [hcl, hlf, hf]
                | error e => simp [hcl, hlf]
            | error e => simp [hcl]
      · simp only [augLoopST, augLoop, if_neg hk, resolveStepST_eq]
        cases hres : resolveStep r key params with
        | ok t => simp [hres, ih]
        | error e => simp [hres]

theorem mapExcept_ok_length {α β : Type} (f : α → Except Err β) :
    ∀ {as : List α} {bs : List β}, mapExcept f as = Except.ok bs →
      bs.length = as.length := by
  intro as
  induction as with
  | nil => intro bs h; cases h; rfl
  | cons a as ih =>
      intro bs h
      unfold mapExcept at h
      cases hf : f a with
      | ok b =>
          rw [hf] at h
          cases hm : mapExcept f as with
          | ok bs' =>
              rw [hm] at h
              cases h
              simp [ih hm]
          | error e => rw [hm] at h; cases h
      | error e => rw [hf] at h; cases h

theorem mapExcept_ok_get {α β : Type} (f : α → Except Err β) :
    ∀ {as : List α} {bs : List β}, mapExcept f as = Except.ok bs →
      ∀ {i : ℕ} {a : α}, as.get? i = some a →
        ∃ b, bs.get? i = some b ∧ f a = Except.ok b := by
  intro as
  induction as with
  | nil => intro bs _ i a ha; cases i <;> cases ha
  | cons a0 as ih =>
      intro bs h i a ha
      unfold mapExcept at h
      cases hf : f a0 with
      | ok b0 =>
          rw [hf] at h
          cases hm : mapExcept f as with
          | ok bs' =>
              rw [hm] at h
              cases h
              cases i with
              | zero => cases ha; exact ⟨b0, rfl, hf⟩
              | succ j => exact ih hm ha
          | error e => rw [hm] at h; cases h
      | error e => rw [hf] at h; cases h

theorem mapExcept_ok_mem {α β : Type} (f : α → Except Err β) :
    ∀ {as : List α} {bs : List β}, mapExcept f as = Except.ok bs →
      ∀ {b : β}, b ∈ bs → ∃ a ∈ as, f a = Except.ok b := by
  intro as
  induction as with
  | nil => intro bs h b hb; cases h; cases hb
  | cons a0 as ih =>
      intro bs h b hb
      unfold mapExcept at h
      cases hf : f a0 with
      | ok b0 =>
          rw [hf] at h
          cases hm : mapExcept f as with
          | ok bs' =>
              rw [hm] at h
              cases h
              cases List.mem_cons.mp hb with
              | inl hb0 => exact ⟨a0, List.mem_cons_self _ _, hb0 ▸ hf⟩
              | inr hbs =>
                  obtain ⟨a, hamem, hfa⟩ := ih hm hbs
                  exact ⟨a, List.mem_cons_of_mem _ hamem, hfa⟩
          | error e => rw [hm] at h; cases h
      | error e => rw [hf] at h; cases h

theorem mapExcept_isOk_iff {α β : Type} (f : α → Except Err β) (as : List α) :
    (∃ bs, mapExcept f as = Except.ok bs) ↔ ∀ a ∈ as, ∃ b, f a = Except.ok b := by
  induction as with
  | nil => simp [mapExcept]
  | cons a0 as ih =>
      constructor
      · rintro ⟨bs, h⟩ a ha
        unfold mapExcept at h
        cases hf : f a0 with
        | ok b0 =>
            rw [hf] at h
            cases hm : mapExcept f as with
            | ok bs' =>
                cases List.mem_cons.mp ha with
                | inl h0 => exact ⟨b0, h0 ▸ hf⟩
                | inr hmem => exact (ih.mp ⟨bs', hm⟩) a hmem
            | error e => rw [hm] at h; cases h
        | error e => rw [hf] at h; cases h
      · intro hall
        obtain ⟨b0, hb0⟩ := hall a0 (List.mem_cons_self _ _)
        obtain ⟨bs, hbs⟩ := ih.mpr (fun a ha => hall a (List.mem_cons_of_mem _ ha))
        refine ⟨b0 :: bs, ?_⟩
        unfold mapExcept
        rw [hb0, hbs]

theorem choiceLoop_eq_mapExcept (r : Registry) (cs : List (List (String × PVal)))
    (acc : List Transform) :
    choiceLoop r cs acc =
      match mapExcept (compileChoiceEntry r) cs with
      | Except.ok ts => Except.ok (acc ++ ts)
      | Except.error e => Except.error e := by
  induction cs generalizing acc with
  | nil => simp [choiceLoop, mapExcept]
  | cons c cs ih =>
      cases c with
      | nil => simp [choiceLoop, mapExcept, compileChoiceEntry]
      | cons hd tl =>
          obtain ⟨k, p⟩ := hd
          cases tl with
          | nil =>
              simp only [choiceLoop, mapExcept, compileChoiceEntry]
              cases hres : resolveStep r k p with
              | ok t =>
                  dsimp only
                  rw [ih]
                  cases mapExcept (compileChoiceEntry r) cs <;> simp
              | error e => rfl
          | cons h2 t2 => simp [choiceLoop, mapExcept, compileChoiceEntry]

theorem augLoop_eq_mapExcept (r : Registry) (cfg : AugConfig)
    (augs : List Transform) :
    augLoop r cfg augs =
      match mapExcept (compileEntry r) cfg with
      | Except.ok ts => Except.ok (augs ++ ts)
      | Except.error e => Except.error e := by
  induction cfg generalizing augs with
  | nil => simp [augLoop, mapExcept]
  | cons e rest ih =>
      obtain ⟨key, params⟩ := e
      by_cases hk : key = "random_choice"
      · subst hk
        cases params with
        | noParams => rfl
        | dict kv => rfl
        | lst cs =>
            simp only [augLoop, mapExcept, compileEntry, eq_self_iff_true, if_true]
            rw [choiceLoop_eq_mapExcept]
            cases hmc : mapExcept (compileChoiceEntry r) cs with
            | ok ts =>
                dsimp only [List.nil_append]
                cases hlf : lookupFactory r "random_choice" with
                | ok f =>
                    dsimp only
                    cases hf : f (FactoryArg.transforms ts) with
                    | ok t =>
                        dsimp only
                        rw [ih]
                        cases mapExcept (compileEntry r) rest <;> simp
                    | error e => rfl
                | error e => rfl
            | error e => rfl
      · simp only [augLoop, mapExcept, compileEntry, if_neg hk]
        cases hres : resolveStep r key params with
        | ok t =>
            dsimp only
            rw [ih]
            cases mapExcept (compileEntry r) rest <;> simp
        | error e => rfl

theorem create_AugTransforms_eq_mapExcept (r : Registry) (cfg : AugConfig) :
    create_AugTransforms r cfg = mapExcept (compileEntry r) cfg := by
  unfold create_AugTransforms
  rw [augLoop_eq_mapExcept]
  cases mapExcept (compileEntry r) cfg <;> simp

theorem lookup_append_of_none {β : Type} (l₁ l₂ : List (String × β)) (k : String)
    (h : l₁.lookup k = none) : (l₁ ++ l₂).lookup k = l₂.lookup k := by
  induction l₁ with
  | nil => rfl
  | cons e l₁ ih =>
      obtain ⟨k', b⟩ := e
      simp only [List.cons_append, List.lookup] at h ⊢
      cases hk : k == k' with
      | true => rw [hk] at h; cases h
      | false =>
          simp only [hk] at h ⊢
          exact ih h

/-- C1: for a configuration with N entries, compilation (when it succeeds)
returns a pipeline with exactly N steps, the i-th step being the compilation
of the i-th configuration entry (so the step order equals the entry order);
an entry whose key is `random_choice` with k candidates contributes exactly
one step, the choice transform over its k compiled candidates. -/
theorem create_AugTransforms_step_count_and_order (r : Registry)
    (cfg : AugConfig) (augs : List Transform)
    (h : create_AugTransforms r cfg = Except.ok augs) :
    augs.length = cfg.length ∧
    (∀ (i : ℕ) (e : String × PVal), cfg.get? i = some e →
      ∃ t, compileEntry r e = Except.ok t ∧ augs.get? i = some t) ∧
    (∀ (i : ℕ) (cs : List (List (String × PVal))),
      cfg.get? i = some ("random_choice", PVal.lst cs) →
      r.lookup "random_choice" = some randomChoiceFactory →
      ∃ ts, mapExcept (compileChoiceEntry r) cs = Except.ok ts ∧
        ts.length = cs.length ∧
        augs.get? i = some (Transform.randomChoice ts)) := by
  rw [create_AugTransforms_eq_mapExcept] at h
  refine ⟨mapExcept_ok_length _ h, ?_, ?_⟩
  · intro i e he
    obtain ⟨t, ht, hct⟩ := mapExcept_ok_get _ h he
    exact ⟨t, hct, ht⟩
  · intro i cs hcs hrc
    obtain ⟨t, ht, hct⟩ := mapExcept_ok_get _ h hcs
    unfold compileEntry at hct
    simp only [eq_self_iff_true, if_true] at hct
    cases hmc : mapExcept (compileChoiceEntry r) cs with
    | ok ts =>
        rw [hmc] at hct
        unfold lookupFactory at hct
        rw [hrc] at hct
        dsimp only [randomChoiceFactory] at hct
        cases hct
        exact ⟨ts, rfl, mapExcept_ok_length _ hmc, ht⟩
    | error e => rw [hmc] at hct; cases hct

theorem create_AugTransforms_step_count_and_order_witness :
    create_AugTransforms demoRegistry demoCfgChoice =
      Except.ok [Transform.step "resize" none,
        Transform.randomChoice [Transform.step "to_tensor" none,
          Transform.step "resize" none]] ∧
    ([Transform.step "resize" none,
        Transform.randomChoice [Transform.step "to_tensor" none,
          Transform.step "resize" none]] : List Transform).length =
      demoCfgChoice.length :=
  ⟨rfl,
   (create_AugTransforms_step_count_and_order demoRegistry demoCfgChoice
      [Transform.step "resize" none,
        Transform.randomChoice [Transform.step "to_tensor" none,
          Transform.step "resize" none]] rfl).1⟩

/-- C8: registering a factory under a name already present in the registry
raises the duplicate-name error and leaves the registry unchanged — the name
still maps to the originally registered factory; a successful registration
appends the factory and returns the pass-through `wrapper`, which behaves
exactly as the wrapped factory on every argument. -/
theorem register_method_duplicate_safe :
    (∀ (r : Registry) (key : String) (fn f₀ : Factory),
      r.lookup key = some f₀ →
        register_methodST r key fn = (Except.error Err.duplicateName, r) ∧
        (register_methodST r key fn).2.lookup key = some f₀) ∧
    (∀ (r : Registry) (key : String) (fn : Factory),
      r.lookup key = none →
        register_methodST r key fn =
          (Except.ok (wrapper fn), r ++ [(key, fn)]) ∧
        (register_methodST r key fn).2.lookup key = some fn ∧
        ∀ args, wrapper fn args = fn args) := by
  constructor
  · intro r key fn f₀ h
    have hsome : (r.lookup key).isSome := by rw [h]; rfl
    constructor
    · unfold register_methodST
      rw [if_pos hsome]
    · unfold register_methodST
      rw [if_pos hsome]
      exact h
  · intro r key fn h
    have hnone : ¬(r.lookup key).isSome := by rw [h]; simp
    refine ⟨?_, ?_, fun args => rfl⟩
    · unfold register_methodST
      rw [if_neg hnone]
    · unfold register_methodST
      rw [if_neg hnone]
      dsimp only
      rw [lookup_append_of_none _ _ _ h]
      simp [List.lookup]

theorem register_method_duplicate_safe_witness :
    demoRegistry.lookup "resize" = some (stepFactory "resize") ∧
    register_methodST demoRegistry "resize" randomChoiceFactory =
      (Except.error Err.duplicateName, demoRegistry) ∧
    ([] : Registry).lookup "resize" = none ∧
    register_methodST [] "resize" (stepFactory "resize") =
      (Except.ok (wrapper (stepFactory "resize")),
       [("resize", stepFactory "resize")]) :=
  ⟨rfl,
   (register_method_duplicate_safe.1 demoRegistry "resize" randomChoiceFactory
      (stepFactory "resize") rfl).1,
   rfl,
   (register_method_duplicate_safe.2 [] "resize" (stepFactory "resize") rfl).1⟩

/-- C9: constructing the patch-replace-with-noise transform over a noise
directory whose glob for `.jpg` files is empty fails fatally at construction
time (the `IndexError` from `self.noisy[0]`), before any image is
processed. -/
theorem cutaddnoise_empty_pool_fatal (n_holes length : ℕ)
    (h_range w_range : Option (ℤ × ℤ)) (prob : ℚ) (globJpg : List String)
    (h : globJpg = []) :
    cutAddNoise_init n_holes length h_range w_range prob globJpg =
      Except.error Err.indexError := by
  subst h; rfl

theorem cutaddnoise_empty_pool_fatal_witness :
    cutAddNoise_init 1 200 none none 1 [] = Except.error Err.indexError :=
  cutaddnoise_empty_pool_fatal 1 200 none none 1 [] rfl

/-- C10: compiling any configuration, successfully or not, leaves the
`AUG_METHODS` registry exactly as it was: the state-passing compilation
returns the pure compilation result together with the untouched registry. -/
theorem create_AugTransforms_registry_frame (r : Registry) (cfg : AugConfig) :
    create_AugTransformsST r cfg = (create_AugTransforms r cfg, r) :=
  augLoopST_eq r cfg []

theorem tagSteps_length (ts : List Transform) :
    (tagSteps ts).length = ts.length := by
  unfold tagSteps
  rw [List.length_map, List.enum_length]

theorem buildOne_eq_mapExcept (base : List ObjTransform)
    (es : List StrOrInt) (acc : List ObjTransform) :
    buildOne base es acc =
      match mapExcept (resolveIdx base) es with
      | Except.ok ts => Except.ok (acc ++ ts)
      | Except.error e => Except.error e := by
  induction es generalizing acc with
  | nil => simp [buildOne, mapExcept]
  | cons e es ih =>
      simp only [buildOne, mapExcept, resolveIdx]
      cases hpi : pyToInt e with
      | ok i =>
          dsimp only
          cases hge : pyGetElem base i with
          | ok t =>
              dsimp only
              rw [ih]
              cases mapExcept (resolveIdx base) es <;> simp
          | error err => rfl
      | error err => rfl

theorem buildAll_eq_mapExcept (base : List ObjTransform)
    (m : List (String × TVal)) (acc : List (String × List ObjTransform)) :
    buildAll base m acc =
      match mapExcept (compileClass base) m with
      | Except.ok cts => Except.ok (acc ++ cts)
      | Except.error e => Except.error e := by
  induction m generalizing acc with
  | nil => simp [buildAll, mapExcept]
  | cons e m ih =>
      obtain ⟨c, tv⟩ := e
      simp only [buildAll, mapExcept, compileClass]
      rw [buildOne_eq_mapExcept]
      cases hmr : mapExcept (resolveIdx base) (elemsOf tv) with
      | ok sub =>
          dsimp only [List.nil_append]
          rw [ih]
          cases mapExcept (compileClass base) m <;> simp
      | error err => rfl

theorem pyGetElem_ok_mem {α : Type} {l : List α} {i : ℤ} {a : α}
    (h : pyGetElem l i = Except.ok a) : a ∈ l := by
  unfold pyGetElem at h
  by_cases h0 : (0 : ℤ) ≤ pyNormIdx l.length i
  · rw [if_pos h0] at h
    cases hget : l.get? (pyNormIdx l.length i).toNat with
    | some b =>
        rw [hget] at h
        cases h
        exact List.get?_mem hget
    | none => rw [hget] at h; cases h
  · rw [if_neg h0] at h; cases h

theorem pyNormIdx_range (len : ℕ) (i : ℤ) :
    (0 ≤ pyNormIdx len i ∧ pyNormIdx len i < len) ↔
      (-(len : ℤ) ≤ i ∧ i < (len : ℤ)) := by
  unfold pyNormIdx
  split <;> omega

theorem pyGetElem_ok_iff {α : Type} (l : List α) (i : ℤ) :
    (∃ a, pyGetElem l i = Except.ok a) ↔
      (-(l.length : ℤ) ≤ i ∧ i < (l.length : ℤ)) := by
  rw [← pyNormIdx_range l.length i]
  unfold pyGetElem
  by_cases h0 : (0 : ℤ) ≤ pyNormIdx l.length i
  · rw [if_pos h0]
    cases hget : l.get? (pyNormIdx l.length i).toNat with
    | some a =>
        obtain ⟨hlt, _⟩ := List.get?_eq_some.mp hget
        constructor
        · intro _; omega
        · intro _; exact ⟨a, rfl⟩
    | none =>
        rw [List.get?_eq_none] at hget
        constructor
        · rintro ⟨a, ha⟩; cases ha
        · intro hr; omega
  · rw [if_neg h0]
    constructor
    · rintro ⟨a, ha⟩; cases ha
    · intro hr; omega

theorem resolveIdx_ok_iff (base : List ObjTransform) (e : StrOrInt) :
    (∃ t, resolveIdx base e = Except.ok t) ↔
      ∃ i : ℤ, pyToInt e = Except.ok i ∧
        -(base.length : ℤ) ≤ i ∧ i < (base.length : ℤ) := by
  unfold resolveIdx
  cases hpi : pyToInt e with
  | ok i =>
      dsimp only
      constructor
      · rintro ⟨t, ht⟩
        exact ⟨i, rfl, (pyGetElem_ok_iff base i).mp ⟨t, ht⟩⟩
      · rintro ⟨i', hi', hrange⟩
        cases hi'
        exact (pyGetElem_ok_iff base i).mpr hrange
  | error err =>
      dsimp only
      constructor
      · rintro ⟨t, ht⟩; cases ht
      · rintro ⟨i', hi', _⟩; cases hi'

theorem baseClassWiseAugmenter_init_ok {r : Registry} {cfg : AugConfig}
    {m : List (String × TVal)} {d : BaseClassWiseAugmenter}
    (h : baseClassWiseAugmenter_init r cfg (some m) = Except.ok d) :
    ∃ p ct, create_AugTransforms r cfg = Except.ok p ∧
      mapExcept (compileClass (tagSteps p)) m = Except.ok ct ∧
      d = ⟨tagSteps p, some ct⟩ := by
  unfold baseClassWiseAugmenter_init at h
  cases hc : create_AugTransforms r cfg with
  | error e => rw [hc] at h; cases h
  | ok p =>
      rw [hc] at h
      dsimp only at h
      rw [buildAll_eq_mapExcept] at h
      cases hm : mapExcept (compileClass (tagSteps p)) m with
      | ok ct =>
          rw [hm] at h
          dsimp only [List.nil_append] at h
          cases h
          exact ⟨p, ct, rfl, hm, rfl⟩
      | error e => rw [hm] at h; cases h

/-- C4: when a class mapping is supplied and construction succeeds, each class
key of the mapping gets, in mapping order, a sub-pipeline consisting of
exactly the default pipeline's steps at the given indices, in the given order
(each element resolved by `int(...)` conversion and Python indexing into the
default pipeline's step list, so repetition and reordering are permitted);
when no mapping is supplied, only the default pipeline exists and
`class_transforms` is `None`. -/
theorem classwise_subpipeline_indices :
    (∀ (r : Registry) (cfg : AugConfig) (m : List (String × TVal))
       (d : BaseClassWiseAugmenter),
      baseClassWiseAugmenter_init r cfg (some m) = Except.ok d →
      ∃ ct, d.class_transforms = some ct ∧ ct.length = m.length ∧
        ∀ (i : ℕ) (c : String) (tv : TVal), m.get? i = some (c, tv) →
          ∃ sub, ct.get? i = some (c, sub) ∧
            mapExcept (resolveIdx d.base_transforms) (elemsOf tv) =
              Except.ok sub) ∧
    (∀ (r : Registry) (cfg : AugConfig) (d : BaseClassWiseAugmenter),
      baseClassWiseAugmenter_init r cfg none = Except.ok d →
      d.class_transforms = none) := by
  constructor
  · intro r cfg m d h
    obtain ⟨p, ct, hp, hm, hd⟩ := baseClassWiseAugmenter_init_ok h
    subst hd
    refine ⟨ct, rfl, mapExcept_ok_length _ hm, ?_⟩
    intro i c tv hi
    obtain ⟨b, hb, hcc⟩ := mapExcept_ok_get _ hm hi
    unfold compileClass at hcc
    cases hsub : mapExcept (resolveIdx (tagSteps p)) (elemsOf tv) with
    | ok sub =>
        rw [hsub] at hcc
        cases hcc
        exact ⟨sub, hb, rfl⟩
    | error e => rw [hsub] at hcc; cases hcc
  · intro r cfg d h
    unfold baseClassWiseAugmenter_init at h
    cases hc : create_AugTransforms r cfg with
    | error e => rw [hc] at h; cases h
    | ok p =>
        rw [hc] at h
        dsimp only at h
        cases h
        rfl

/-- A concrete dispatcher built from `demoCfgPlain` with the class mapping
`{"a": [1]}`. -/
def demoDisp1 : BaseClassWiseAugmenter :=
  ⟨[⟨0, Transform.step "resize" none⟩, ⟨1, Transform.step "to_tensor" none⟩],
   some [("a", [⟨1, Transform.step "to_tensor" none⟩])]⟩

theorem classwise_subpipeline_indices_witness :
    ∃ ct, demoDisp1.class_transforms = some ct ∧
      ct.length = [("a", TVal.ints [1])].length ∧
      ∀ (i : ℕ) (c : String) (tv : TVal),
        [("a", TVal.ints [1])].get? i = some (c, tv) →
        ∃ sub, ct.get? i = some (c, sub) ∧
          mapExcept (resolveIdx demoDisp1.base_transforms) (elemsOf tv) =
            Except.ok sub :=
  classwise_subpipeline_indices.1 demoRegistry demoCfgPlain
    [("a", TVal.ints [1])] demoDisp1 rfl

/-- C5 counterexample: the index `-1` is outside `0..len-1` for the two-step
default pipeline of `demoCfgPlain`, yet dispatcher construction succeeds,
silently selecting the last step by Python's negative indexing — so
out-of-`0..len-1` indices are not a fatal configuration error. -/
theorem classwise_negative_index_accepted_cex :
    baseClassWiseAugmenter_init demoRegistry demoCfgPlain
      (some [("a", TVal.ints [-1])]) =
    Except.ok
      ⟨[⟨0, Transform.step "resize" none⟩,
        ⟨1, Transform.step "to_tensor" none⟩],
       some [("a", [⟨1, Transform.step "to_tensor" none⟩])]⟩ := rfl

/-- C5 (amended): construction validates indices against Python's indexing
rule, not `0..len-1`: given a compiled default pipeline of length `len`,
construction succeeds exactly when every mapping element converts to an
integer `i` with `-len ≤ i < len`; an index in `-len..-1` is accepted and
counts from the end, while any index with `i ≥ len` or `i < -len` fails
construction with an `IndexError` (no silent defaulting). -/
theorem classwise_index_range_validation (r : Registry) (cfg : AugConfig)
    (m : List (String × TVal)) (p : List Transform)
    (hp : create_AugTransforms r cfg = Except.ok p) :
    (∃ d, baseClassWiseAugmenter_init r cfg (some m) = Except.ok d) ↔
      ∀ ctv ∈ m, ∀ e ∈ elemsOf ctv.2,
        ∃ i : ℤ, pyToInt e = Except.ok i ∧
          -(p.length : ℤ) ≤ i ∧ i < (p.length : ℤ) := by
  have hbase : (tagSteps p).length = p.length := tagSteps_length p
  unfold baseClassWiseAugmenter_init
  rw [hp]
  dsimp only
  rw [buildAll_eq_mapExcept]
  constructor
  · rintro ⟨d, hd⟩ ctv hctv e he
    cases hm : mapExcept (compileClass (tagSteps p)) m with
    | ok ct =>
        obtain ⟨b, hb⟩ :=
          (mapExcept_isOk_iff (compileClass (tagSteps p)) m).mp ⟨ct, hm⟩ ctv hctv
        unfold compileClass at hb
        cases hsub : mapExcept (resolveIdx (tagSteps p)) (elemsOf ctv.2) with
        | ok sub =>
            obtain ⟨t, ht⟩ := (mapExcept_isOk_iff _ _).mp ⟨sub, hsub⟩ e he
            obtain ⟨i, hi, hr⟩ := (resolveIdx_ok_iff _ e).mp ⟨t, ht⟩
            rw [hbase] at hr
            exact ⟨i, hi, hr⟩
        | error err => rw [hsub] at hb; cases hb
    | error err => rw [hm] at hd; cases hd
  · intro hall
    have hcls : ∀ ctv ∈ m, ∃ b, compileClass (tagSteps p) ctv = Except.ok b := by
      intro ctv hctv
      have hsub : ∃ sub,
          mapExcept (resolveIdx (tagSteps p)) (elemsOf ctv.2) = Except.ok sub := by
        apply (mapExcept_isOk_iff _ _).mpr
        intro e he
        apply (resolveIdx_ok_iff _ e).mpr
        obtain ⟨i, hi, h1, h2⟩ := hall ctv hctv e he
        rw [hbase]
        exact ⟨i, hi, h1, h2⟩
      obtain ⟨sub, hsub⟩ := hsub
      refine ⟨(ctv.1, sub), ?_⟩
      unfold compileClass
      rw [hsub]
    obtain ⟨ct, hct⟩ := (mapExcept_isOk_iff _ _).mpr hcls
    rw [hct]
    exact ⟨⟨tagSteps p, some ct⟩, rfl⟩

theorem classwise_index_range_validation_witness :
    (∃ d, baseClassWiseAugmenter_init demoRegistry demoCfgPlain
        (some [("a", TVal.ints [1])]) = Except.ok d) ↔
      ∀ ctv ∈ [("a", TVal.ints [1])], ∀ e ∈ elemsOf ctv.2,
        ∃ i : ℤ, pyToInt e = Except.ok i ∧
          -(([Transform.step "resize" none,
              Transform.step "to_tensor" none] : List Transform).length : ℤ) ≤ i ∧
          i < (([Transform.step "resize" none,
              Transform.step "to_tensor" none] : List Transform).length : ℤ) :=
  classwise_index_range_validation demoRegistry demoCfgPlain
    [("a", TVal.ints [1])]
    [Transform.step "resize" none, Transform.step "to_tensor" none] rfl

/-- C3 counterexample: for the dispatcher built from `demoCfgPlain` with the
class mapping `{"a": [0]}`, the per-class sub-pipeline for `"a"` and the
default pipeline are two distinct pipelines, yet the step object with
identity 0 belongs to both: the sub-pipeline aliases the default pipeline's
first step instead of owning a copy. -/
theorem classwise_shared_step_cex :
    baseClassWiseAugmenter_init demoRegistry demoCfgPlain
      (some [("a", TVal.ints [0])]) =
    Except.ok
      ⟨[⟨0, Transform.step "resize" none⟩,
        ⟨1, Transform.step "to_tensor" none⟩],
       some [("a", [⟨0, Transform.step "resize" none⟩])]⟩ ∧
    (⟨0, Transform.step "resize" none⟩ : ObjTransform) ∈
      ([⟨0, Transform.step "resize" none⟩] : List ObjTransform) ∧
    (⟨0, Transform.step "resize" none⟩ : ObjTransform) ∈
      ([⟨0, Transform.step "resize" none⟩,
        ⟨1, Transform.step "to_tensor" none⟩] : List ObjTransform) ∧
    ([⟨0, Transform.step "resize" none⟩] : List ObjTransform) ≠
      [⟨0, Transform.step "resize" none⟩,
       ⟨1, Transform.step "to_tensor" none⟩] := by
  refine ⟨rfl, List.mem_singleton.mpr rfl, List.mem_cons_self _ _, ?_⟩
  intro hcontra
  have := congrArg List.length hcontra
  simp at this

/-- C3 (amended): within one class-wise dispatcher, per-class sub-pipelines
do not own their steps: every step of every per-class sub-pipeline is one of
the default pipeline's step objects (shared by reference, as
`BaseClassWiseAugmenter.__init__` appends
`self.base_transforms.transforms[int(i)]` without copying). -/
theorem classwise_steps_aliased (r : Registry) (cfg : AugConfig)
    (m : List (String × TVal)) (d : BaseClassWiseAugmenter)
    (h : baseClassWiseAugmenter_init r cfg (some m) = Except.ok d)
    (ct : List (String × List ObjTransform))
    (hct : d.class_transforms = some ct)
    (csub : String × List ObjTransform) (hmem : csub ∈ ct)
    (s : ObjTransform) (hs : s ∈ csub.2) :
    s ∈ d.base_transforms := by
  obtain ⟨p, ct', hp, hm, hd⟩ := baseClassWiseAugmenter_init_ok h
  subst hd
  dsimp only at hct ⊢
  injection hct with hct'
  subst hct'
  obtain ⟨entry, hentry, hcc⟩ := mapExcept_ok_mem _ hm hmem
  unfold compileClass at hcc
  cases hsub : mapExcept (resolveIdx (tagSteps p)) (elemsOf entry.2) with
  | ok sub =>
      rw [hsub] at hcc
      cases hcc
      obtain ⟨e, he, hre⟩ := mapExcept_ok_mem _ hsub hs
      unfold resolveIdx at hre
      cases hpi : pyToInt e with
      | ok i =>
          rw [hpi] at hre
          dsimp only at hre
          exact pyGetElem_ok_mem hre
      | error err => rw [hpi] at hre; cases hre
  | error err => rw [hsub] at hcc; cases hcc

theorem classwise_steps_aliased_witness :
    (⟨0, Transform.step "resize" none⟩ : ObjTransform) ∈
      (⟨[⟨0, Transform.step "resize" none⟩,
         ⟨1, Transform.step "to_tensor" none⟩],
        some [("a", [⟨0, Transform.step "resize" none⟩])]⟩ :
          BaseClassWiseAugmenter).base_transforms :=
  classwise_steps_aliased demoRegistry demoCfgPlain [("a", TVal.ints [0])]
    ⟨[⟨0, Transform.step "resize" none⟩,
      ⟨1, Transform.step "to_tensor" none⟩],
     some [("a", [⟨0, Transform.step "resize" none⟩])]⟩ rfl
    [("a", [⟨0, Transform.step "resize" none⟩])] rfl
    ("a", [⟨0, Transform.step "resize" none⟩]) (List.mem_singleton.mpr rfl)
    ⟨0, Transform.step "resize" none⟩ (List.mem_singleton.mpr rfl)

theorem pasteImage_pixel_in (canvas src : PILImage) (ox oy dx dy : ℕ)
    (hdx : dx < src.width) (hdy : dy < src.height) :
    (pasteImage canvas src ox oy).pixel (ox + dx) (oy + dy) =
      src.pixel dx dy := by
  unfold pasteImage
  dsimp only
  rw [if_pos ⟨Nat.le_add_right ox dx, by omega, Nat.le_add_right oy dy, by omega⟩]
  rw [Nat.add_sub_cancel_left, Nat.add_sub_cancel_left]

/-- C6: square padding always returns a square image whose side is the larger
of the input's width and height; in `average` mode the source is pasted at
offset `((max-w)//2, (max-h)//2)` (centered within one pixel), and in `edge`
mode at offset `(max-w, max-h)` (flush against one corner, all padding on the
opposite side). -/
theorem pad2square_geometry (t : PadIfNeedT) (img : PILImage) :
    (padIfNeed_call t img).width = max img.width img.height ∧
    (padIfNeed_call t img).height = max img.width img.height ∧
    (t.mode = "average" → ∀ dx dy : ℕ, dx < img.width → dy < img.height →
      (padIfNeed_call t img).pixel
          ((max img.width img.height - img.width) / 2 + dx)
          ((max img.width img.height - img.height) / 2 + dy) =
        img.pixel dx dy) ∧
    (t.mode = "edge" → ∀ dx dy : ℕ, dx < img.width → dy < img.height →
      (padIfNeed_call t img).pixel
          (max img.width img.height - img.width + dx)
          (max img.width img.height - img.height + dy) =
        img.pixel dx dy) := by
  refine ⟨?_, ?_, ?_, ?_⟩
  · unfold padIfNeed_call
    split <;> rfl
  · unfold padIfNeed_call
    split <;> rfl
  · intro hm dx dy hdx hdy
    unfold padIfNeed_call
    rw [if_pos hm]
    exact pasteImage_pixel_in _ img _ _ dx dy hdx hdy
  · intro hm dx dy hdx hdy
    unfold padIfNeed_call
    rw [if_neg (by rw [hm]; decide)]
    exact pasteImage_pixel_in _ img _ _ dx dy hdx hdy

theorem pad2square_geometry_witness :
    (padIfNeed_call ⟨(0, 0, 0), "average"⟩ whiteWide).pixel
        ((max whiteWide.width whiteWide.height - whiteWide.width) / 2 + 1)
        ((max whiteWide.width whiteWide.height - whiteWide.height) / 2 + 0) =
      whiteWide.pixel 1 0 ∧
    (padIfNeed_call ⟨(7, 7, 7), "edge"⟩ whiteWide).pixel
        (max whiteWide.width whiteWide.height - whiteWide.width + 1)
        (max whiteWide.width whiteWide.height - whiteWide.height + 0) =
      whiteWide.pixel 1 0 :=
  ⟨(pad2square_geometry ⟨(0, 0, 0), "average"⟩ whiteWide).2.2.1 rfl 1 0
      (by decide) (by decide),
   (pad2square_geometry ⟨(7, 7, 7), "edge"⟩ whiteWide).2.2.2 rfl 1 0
      (by decide) (by decide)⟩

theorem pasteHole_pixel_in (length mw mh : ℕ) (im : PILImage) (yx : ℤ × ℤ)
    (px py : ℕ) (hin : inHoleRect length mw mh yx px py) :
    (pasteHole length mw mh im yx).pixel px py = (0, 0, 0) := by
  obtain ⟨h1, h2, h3, h4⟩ := hin
  unfold pasteHole pasteImage
  dsimp only
  rw [if_pos ⟨h1, h2, h3, h4⟩]
  rfl

theorem pasteHole_pixel_out (length mw mh : ℕ) (im : PILImage) (yx : ℤ × ℤ)
    (px py : ℕ) (hout : ¬ inHoleRect length mw mh yx px py) :
    (pasteHole length mw mh im yx).pixel px py = im.pixel px py := by
  unfold pasteHole pasteImage
  dsimp only
  exact if_neg hout

theorem pasteHole_preserves_black (length mw mh : ℕ) (im : PILImage)
    (yx : ℤ × ℤ) (px py : ℕ) (hb : im.pixel px py = (0, 0, 0)) :
    (pasteHole length mw mh im yx).pixel px py = (0, 0, 0) := by
  by_cases hin : inHoleRect length mw mh yx px py
  · exact pasteHole_pixel_in length mw mh im yx px py hin
  · rw [pasteHole_pixel_out length mw mh im yx px py hin]
    exact hb

theorem foldl_pasteHole_preserves_black (length mw mh : ℕ)
    (centers : List (ℤ × ℤ)) (im : PILImage) (px py : ℕ)
    (hb : im.pixel px py = (0, 0, 0)) :
    (centers.foldl (pasteHole length mw mh) im).pixel px py = (0, 0, 0) := by
  induction centers generalizing im with
  | nil => exact hb
  | cons yx cs ih =>
      simp only [List.foldl_cons]
      exact ih _ (pasteHole_preserves_black length mw mh im yx px py hb)

theorem foldl_pasteHole_frame (length mw mh : ℕ) (centers : List (ℤ × ℤ))
    (im : PILImage) (px py : ℕ)
    (hout : ∀ yx ∈ centers, ¬ inHoleRect length mw mh yx px py) :
    (centers.foldl (pasteHole length mw mh) im).pixel px py =
      im.pixel px py := by
  induction centers generalizing im with
  | nil => rfl
  | cons yx cs ih =>
      simp only [List.foldl_cons]
      rw [ih _ (fun z hz => hout z (List.mem_cons_of_mem _ hz))]
      exact pasteHole_pixel_out length mw mh im yx px py
        (hout yx (List.mem_cons_self _ _))

theorem cutoutHoles_black (length mw mh : ℕ) (centers : List (ℤ × ℤ))
    (img : PILImage) (yx : ℤ × ℤ) (hmem : yx ∈ centers) (px py : ℕ)
    (hin : inHoleRect length mw mh yx px py) :
    (centers.foldl (pasteHole length mw mh) img).pixel px py = (0, 0, 0) := by
  induction centers generalizing img with
  | nil => cases hmem
  | cons c cs ih =>
      simp only [List.foldl_cons]
      rcases List.mem_cons.mp hmem with h | h
      · subst h
        exact foldl_pasteHole_preserves_black length mw mh cs _ px py
          (pasteHole_pixel_in length mw mh img yx px py hin)
      · exact ih (pasteHole length mw mh img c) h

theorem cutoutApply_eq_perHole_const (c : CutoutT) (u : ℚ)
    (centers : List (ℤ × ℤ)) (img : PILImage) :
    cutoutApply c u centers img =
      cutoutApplySpecPerHole c (List.replicate centers.length u) centers img := by
  unfold cutoutApply cutoutApplySpecPerHole
  induction centers generalizing img with
  | nil => rfl
  | cons yx cs ih =>
      simp only [List.length_cons, List.replicate_succ, List.zip_cons_cons,
        List.foldl_cons]
      exact ih _

/-- C2 (amended): in the apply branch, the width factor U is drawn once per
call, before the hole loop, and shared by all n holes — the transform equals
the per-hole-independent-draw model only with the same factor replicated for
every hole; each of the n holes pastes a solid black rectangle of height L
and width `int(U * L)` at the top-left corner obtained by subtracting `L // 2`
from each sampled center coordinate and clamping to ≥ 0, and holes may
overlap (later holes paint over earlier ones, all in black). -/
theorem cutout_width_drawn_once (c : CutoutT) (u : ℚ)
    (centers : List (ℤ × ℤ)) (img : PILImage)
    (hn : centers.length = c.n_holes) :
    cutoutApply c u centers img =
      cutoutApplySpecPerHole c (List.replicate c.n_holes u) centers img ∧
    ∀ yx ∈ centers, ∀ px py : ℕ,
      inHoleRect c.length (maskW c.length u) c.length yx px py →
      (cutoutApply c u centers img).pixel px py = (0, 0, 0) := by
  rw [← hn]
  exact ⟨cutoutApply_eq_perHole_const c u centers img,
         fun yx hmem px py hin =>
           cutoutHoles_black c.length (maskW c.length u) c.length centers img
             yx hmem px py hin⟩

theorem cutout_width_drawn_once_witness :
    ([((0 : ℤ), (0 : ℤ)), ((0 : ℤ), (4 : ℤ))].length = cexCutoutTwo.n_holes) ∧
    cutoutApply cexCutoutTwo 1 [(0, 0), (0, 4)] whiteWide =
      cutoutApplySpecPerHole cexCutoutTwo
        (List.replicate cexCutoutTwo.n_holes 1) [(0, 0), (0, 4)] whiteWide :=
  ⟨rfl,
   (cutout_width_drawn_once cexCutoutTwo 1 [(0, 0), (0, 4)] whiteWide rfl).1⟩

/-- C2 counterexample: with two holes at centers (0,0) and (0,4), side length
2 and jitter ratio 1, the code (one width draw `u = 1` shared by both holes)
leaves pixel (5,0) of an 8×2 white image white, while the claimed per-hole
independent draws `u₁ = 1, u₂ = 2` would paint it black: the code's widths
cannot vary per hole, so U is not drawn independently for each hole. -/
theorem cutout_per_hole_width_cex :
    (cutoutApply cexCutoutTwo 1 [(0, 0), (0, 4)] whiteWide).pixel 5 0 ≠
      (cutoutApplySpecPerHole cexCutoutTwo [1, 2]
        [(0, 0), (0, 4)] whiteWide).pixel 5 0 := by
  have h1 : maskW 2 1 = 2 := by unfold maskW; rw [one_mul]; decide
  have h2 : maskW 2 2 = 4 := by
    have hm : ((2 : ℚ) * ((2 : ℕ) : ℚ)) = ((4 : ℕ) : ℚ) := by norm_num
    unfold maskW; rw [hm]; decide
  simp only [cutoutApply, cutoutApplySpecPerHole, cexCutoutTwo,
    List.zip_cons_cons, List.zip_nil_right, List.foldl_cons, List.foldl_nil]
  rw [h1, h2]
  decide

/-- C7 (amended): the gate draw `r = random.random()` is compared with `>`:
the input is returned untouched exactly when `prob < r`, so with probability
0 the transform is the identity for every strictly positive draw, but a draw
of exactly 0 takes the apply branch; with probability 1 the apply branch is
always taken (every draw satisfies `r ≤ 1`), painting the holes black on a
fresh copy, and pixels outside every hole keep their input values — so the
output's pixel content differs from the input exactly at hole pixels that
were not already black (an all-black input yields pixel-identical content). -/
theorem cutout_probability_gate :
    (∀ (c : CutoutT) (gate u : ℚ) (centers : List (ℤ × ℤ)) (img : PILImage),
      c.prob < gate → cutoutCall c gate u centers img = img) ∧
    (∀ (c : CutoutT) (gate u : ℚ) (centers : List (ℤ × ℤ)) (img : PILImage),
      gate ≤ c.prob →
        cutoutCall c gate u centers img = cutoutApply c u centers img) ∧
    (∀ (c : CutoutT) (u : ℚ) (centers : List (ℤ × ℤ)) (img : PILImage)
       (px py : ℕ),
      (∀ yx ∈ centers,
        ¬ inHoleRect c.length (maskW c.length u) c.length yx px py) →
      (cutoutApply c u centers img).pixel px py = img.pixel px py) := by
  refine ⟨?_, ?_, ?_⟩
  · intro c gate u cs img h
    unfold cutoutCall
    rw [if_pos h]
  · intro c gate u cs img h
    unfold cutoutCall
    rw [if_neg (not_lt.mpr h)]
  · intro c u cs img px py hout
    exact foldl_pasteHole_frame c.length (maskW c.length u) c.length cs img
      px py hout

theorem cutout_probability_gate_witness :
    (cexCutoutP0.prob < 1) ∧
    cutoutCall cexCutoutP0 1 1 [(0, 0)] whiteSmall = whiteSmall :=
  ⟨by decide,
   cutout_probability_gate.1 cexCutoutP0 1 1 [(0, 0)] whiteSmall (by decide)⟩

/-- C7 counterexample: with apply probability 0 and a gate draw of exactly 0
(a legal value of `random.random()`), the comparison `0 > 0` is false, so the
apply branch runs and pixel (0,0) of a white image turns black — the
transform is not the identity for every random state; and with apply
probability 1 on an all-black input, the returned buffer is pixel-identical
to the input, so the output does not always differ. -/
theorem cutout_probability_cex :
    (cutoutCall cexCutoutP0 0 1 [(0, 0)] whiteSmall).pixel 0 0 ≠
      whiteSmall.pixel 0 0 ∧
    pixelsEq (cutoutCall cexCutoutP1 0 1 [(0, 0)] blackSmall) blackSmall =
      true := by
  have h1 : maskW 2 1 = 2 := by unfold maskW; rw [one_mul]; decide
  constructor
  · unfold cutoutCall
    rw [if_neg (by decide : ¬(cexCutoutP0.prob < 0))]
    simp only [cutoutApply, cexCutoutP0, List.foldl_cons, List.foldl_nil]
    rw [h1]
    decide
  · unfold cutoutCall
    rw [if_neg (by decide : ¬(cexCutoutP1.prob < 0))]
    simp only [pixelsEq, cutoutApply, cexCutoutP1, List.foldl_cons,
      List.foldl_nil]
    simp only [h1]
    decide
